import Mathlib

/-!
Shallow embedding of the voxel-world core of the `ditch` repository
(`src/chunk.rs`, `src/world.rs`, `src/types.rs`, `src/assets/mod.rs`)
and proofs about the specification claims.

Modelling conventions:
* Rust machine integers are modelled as `Nat`/`Int`; wrapping is made
  explicit (`% 2 ^ 32` for the `AtomicU32` nonce counter, `Int.bmod _ (2 ^ 16)`
  for `as i16` casts, `Int.bmod _ (2 ^ 32)` for wrapping `i32` arithmetic).
* `f32`/`f64` values (vertex positions, noise samples) are modelled as exact
  rationals `ℚ`; the `as i32` cast is truncation toward zero with `i32`
  saturation, as in Rust.
* The external crates `noise` (Perlin) and `rand_xoshiro` (Xoshiro256++) are
  not part of this repository; they are modelled as parameters: a sampler
  `Nat → ℚ → ℚ → ℚ` (seed, x, y ↦ sample) and a deterministic stream
  `Nat → Nat → Nat` (seed, draw index ↦ `next_u32` value).
* The process-wide atomic nonce counter is modelled by explicit state passing
  of the counter value (the program is single-threaded).
-/

namespace Ditch

/-! ### `src/types.rs` -/

/-- The `enum Direction` from `src/types.rs`. -/
inductive Direction where
  | west
  | east
  | south
  | north
  | down
  | up
deriving DecidableEq

/-- The involutive `Direction::opposite` from `src/types.rs`. -/
def Direction.opposite : Direction → Direction
  | .west => .east
  | .east => .west
  | .south => .north
  | .north => .south
  | .down => .up
  | .up => .down

/-- The `struct DirMap<T>` from `src/types.rs`: one value per direction. -/
structure DirMap (α : Type) where
  west : α
  east : α
  south : α
  north : α
  down : α
  up : α
deriving DecidableEq

/-- Indexing `impl Index<Direction> for DirMap<T>` from `src/types.rs`. -/
def DirMap.get (m : DirMap α) : Direction → α
  | .west => m.west
  | .east => m.east
  | .south => m.south
  | .north => m.north
  | .down => m.down
  | .up => m.up

/-- The `struct SideMap<T>` from `src/types.rs`: one value per direction plus "none". -/
structure SideMap (α : Type) where
  west : α
  east : α
  south : α
  north : α
  down : α
  up : α
  none : α
deriving DecidableEq

/-- Indexing `impl Index<Side> for SideMap<T>` from `src/types.rs` (`Side = Option<Direction>`). -/
def SideMap.get (m : SideMap α) : Option Direction → α
  | some .west => m.west
  | some .east => m.east
  | some .south => m.south
  | some .north => m.north
  | some .down => m.down
  | some .up => m.up
  | .none => m.none

/-- The `SIDES` constant from `src/types.rs`. -/
def SIDES : List (Option Direction) :=
  [some .west, some .east, some .south, some .north, some .down, some .up, none]

/-- The `glam::IVec3` type: a vector of three `i32` coordinates, modelled over `Int`. -/
structure IVec3 where
  x : Int
  y : Int
  z : Int
deriving DecidableEq

/-- The unit vector `impl From<Direction> for IVec3` from `src/types.rs`. -/
def dir_vec : Direction → IVec3
  | .west => ⟨-1, 0, 0⟩
  | .east => ⟨1, 0, 0⟩
  | .south => ⟨0, -1, 0⟩
  | .north => ⟨0, 1, 0⟩
  | .down => ⟨0, 0, -1⟩
  | .up => ⟨0, 0, 1⟩

/-! ### Vertices and block definitions (`src/graphics`, `src/assets/mod.rs`)

`f32` fields are modelled as exact rationals. -/

/-- A 3-component `f32` vector, modelled as rationals. -/
structure Vec3q where
  x : ℚ
  y : ℚ
  z : ℚ
deriving DecidableEq

/-- A 2-component `f32` vector, modelled as rationals. -/
structure Vec2q where
  x : ℚ
  y : ℚ
deriving DecidableEq

/-- The `Vertex` record produced by the mesher (position, texture coordinate,
shade factor, light level). -/
structure Vertex where
  xyz : Vec3q
  uv : Vec2q
  shadow : ℚ
  light : Nat
deriving DecidableEq

/-- The alias `pub type Quad = [Vertex; 4]` from `src/assets/mod.rs`. -/
abbrev Quad := Vertex × Vertex × Vertex × Vertex

/-- The `struct Block` from `src/assets/mod.rs`: culling flags and per-side quads. -/
structure Block where
  culls : DirMap Bool
  mesh : SideMap (List Quad)
deriving DecidableEq

/-- The default block `Block::default()`: no culling, no geometry. -/
def emptyBlock : Block :=
  { culls := ⟨false, false, false, false, false, false⟩
    mesh := ⟨[], [], [], [], [], [], []⟩ }

/-- The `struct Pack` from `src/assets/mod.rs` (the texture atlases are irrelevant to
this core and omitted): a name-sorted list of `(name, Block)` pairs. -/
structure Pack where
  blocks : List (String × Block)

/-! ### `src/chunk.rs`: the chunk store -/

/-- The `struct Chunk`: a `nonce` (`u32`, modelled as `Nat`) and a dense
`32 × 32 × 32` array of `i16` block identifiers, indexed `contents[z][y][x]`. -/
structure Chunk where
  nonce : Nat
  contents : Fin 32 → Fin 32 → Fin 32 → Int

/-- The function `fresh_nonce` from `src/chunk.rs`: `NONCE.fetch_add(1, Relaxed)` on the
process-wide `AtomicU32`.  The counter state `s` is passed explicitly; the
returned nonce is the old counter value and the new state wraps at `2 ^ 32`
exactly as `AtomicU32::fetch_add` does. -/
def fresh_nonce (s : Nat) : Nat × Nat :=
  (s, (s + 1) % 2 ^ 32)

/-- The coordinate wrap `index & 31` applied to each axis by
`impl Index<IVec3> for Chunk` (`src/chunk.rs`).  On a two's-complement `i32`,
masking to the low 5 bits is Euclidean remainder mod 32; the theorem
`int_land_31` below proves this model equal to the bitwise `Int.land _ 31`. -/
def mask31 (a : Int) : Nat :=
  (a % 32).toNat

/-- Masking `n &&& 31` is `n % 32` on naturals. -/
theorem nat_land_31 (n : Nat) : n &&& 31 = n % 32 := by
  apply Nat.eq_of_testBit_eq
  intro i
  rw [Nat.testBit_land, show (31 : Nat) = 2 ^ 5 - 1 from rfl,
    Nat.testBit_two_pow_sub_one, show (32 : Nat) = 2 ^ 5 from rfl,
    Nat.testBit_mod_two_pow, Bool.and_comm]

/-- The value `Nat.ldiff 31 n` only depends on the low 5 bits of `n`. -/
theorem nat_ldiff_31_mod (n : Nat) : Nat.ldiff 31 n = Nat.ldiff 31 (n % 32) := by
  apply Nat.eq_of_testBit_eq
  intro i
  rw [Nat.testBit_ldiff, Nat.testBit_ldiff, show (32 : Nat) = 2 ^ 5 from rfl,
    Nat.testBit_mod_two_pow]
  rcases Nat.lt_or_ge i 5 with h | h
  · simp [h]
  · have h31 : Nat.testBit 31 i = false := by
      rw [show (31 : Nat) = 2 ^ 5 - 1 from rfl, Nat.testBit_two_pow_sub_one]
      simpa using Nat.not_lt.mpr h
    simp [h31]

/-- On the low 5 bits, `Nat.ldiff 31` is complement: `Nat.ldiff 31 m = 31 - m`
for `m < 32`. -/
theorem nat_ldiff_31_eq_sub (m : Nat) (hm : m < 32) : Nat.ldiff 31 m = 31 - m := by
  interval_cases m <;> simp [Nat.ldiff, Nat.bitwise]

/-- Masking an `i32` to its low 5 bits is Euclidean remainder mod 32: the
two's-complement identity `a & 31 = a.rem_euclid(32)` behind the chunk's
wraparound indexing. -/
theorem int_land_31 (a : Int) : Int.land a 31 = a % 32 := by
  cases a with
  | ofNat n =>
    show ((n &&& 31 : Nat) : Int) = (n : Int) % 32
    rw [nat_land_31]
    omega
  | negSucc n =>
    show ((Nat.ldiff 31 n : Nat) : Int) = Int.negSucc n % 32
    rw [nat_ldiff_31_mod, nat_ldiff_31_eq_sub (n % 32) (Nat.mod_lt _ (by omega)),
      Int.negSucc_eq]
    omega

theorem mask31_lt (a : Int) : mask31 a < 32 := by
  rw [mask31]
  have h1 : 0 ≤ a % 32 := Int.emod_nonneg a (by omega)
  have h2 : a % 32 < 32 := Int.emod_lt_of_pos a (by omega)
  omega

/-- The wrapped coordinate as an index into the 32-element axis. -/
def maskFin (a : Int) : Fin 32 :=
  ⟨mask31 a, mask31_lt a⟩

/-- Indexing `impl Index<IVec3> for Chunk` from `src/chunk.rs`: wrap each axis with
`& 31`, then read `contents[z][y][x]`.  Total: no out-of-range failure. -/
def Chunk.get (c : Chunk) (index : IVec3) : Int :=
  c.contents (maskFin index.z) (maskFin index.y) (maskFin index.x)

/-- The mutator `Chunk::place` from `src/chunk.rs`: write `block` at the wrapped
coordinate and stamp a fresh nonce.  Returns the updated chunk together with
the updated global counter state. -/
def Chunk.place (c : Chunk) (location : IVec3) (block : Int) (s : Nat) :
    Chunk × Nat :=
  let n := fresh_nonce s
  ({ nonce := n.1
     contents := fun z y x =>
       if z = maskFin location.z ∧ y = maskFin location.y ∧ x = maskFin location.x then
         block
       else
         c.contents z y x }, n.2)

/-! ### `Chunk::generate` (`src/chunk.rs`)

The terrain generator.  The external `noise::Perlin` sampler and the
`rand_xoshiro::Xoshiro256PlusPlus` stream are modelled as parameters
(`perlin seed x y` and `xo seed i`, the `i`-th `next_u32` value of the
generator seeded with `seed`). -/

/-- Rust's `slice::binary_search_by` (standard library) over the name-sorted
block list, comparing each entry's name against `target`; returns `some idx`
on `Ordering::Equal`, `none` (i.e. `Err`, which the caller `unwrap`s into a
panic) when no probe compares equal. -/
def bs_go (xs : List (String × Block)) (target : String) (left right : Nat) :
    Option Nat :=
  if _h : left < right then
    let mid := left + (right - left) / 2
    match compare (xs.getD mid ("", emptyBlock)).1 target with
    | .lt => bs_go xs target (mid + 1) right
    | .gt => bs_go xs target left mid
    | .eq => some mid
  else
    none
termination_by right - left
decreasing_by all_goals omega

/-- The lookup `pack.blocks.binary_search_by(|(n, _)| n.as_str().cmp(target))` as used by
`Chunk::generate`. -/
def binary_search_name (pack : Pack) (target : String) : Option Nat :=
  bs_go pack.blocks target 0 pack.blocks.length

/-- The block identifiers `Chunk::generate` resolves by name before filling
any voxel (`b_air` … `b_stone` in `src/chunk.rs`). -/
structure BlockIds where
  air : Nat
  bedrock : Nat
  cactus : Nat
  cobblestone : Nat
  dirt : Nat
  grass : Nat
  gravel : Nat
  obsidian : Nat
  pumpkin : Nat
  sand : Nat
  stone : Nat

/-- The block names `Chunk::generate` requires from the pack, in lookup order. -/
def requiredNames : List String :=
  ["air", "bedrock.toml", "cactus.toml", "cobblestone.toml", "dirt.toml",
   "grass.toml", "gravel.toml", "obsidian.toml", "pumpkin.toml", "sand.toml",
   "stone.toml"]

/-- The eleven `binary_search_by(..).unwrap()` name lookups at the top of
`Chunk::generate`, performed once per generation call, before the voxel fill
loop; a failed lookup panics (modelled as `none`). -/
def lookup_ids (pack : Pack) : Option BlockIds :=
  (binary_search_name pack "air").bind fun air =>
  (binary_search_name pack "bedrock.toml").bind fun bedrock =>
  (binary_search_name pack "cactus.toml").bind fun cactus =>
  (binary_search_name pack "cobblestone.toml").bind fun cobblestone =>
  (binary_search_name pack "dirt.toml").bind fun dirt =>
  (binary_search_name pack "grass.toml").bind fun grass =>
  (binary_search_name pack "gravel.toml").bind fun gravel =>
  (binary_search_name pack "obsidian.toml").bind fun obsidian =>
  (binary_search_name pack "pumpkin.toml").bind fun pumpkin =>
  (binary_search_name pack "sand.toml").bind fun sand =>
  (binary_search_name pack "stone.toml").bind fun stone =>
  some ⟨air, bedrock, cactus, cobblestone, dirt, grass, gravel, obsidian,
    pumpkin, sand, stone⟩

/-- The `f64` constant `std::f64::consts::SQRT_2`, i.e. the `f64` value nearest
`√2`, as an exact rational. -/
def sqrt2_f64 : ℚ := 6369051672525773 / 4503599627370496

/-- The three-octave noise combination computed per world column in
`Chunk::generate` (`val1 + val2 + val3` with weights `0.9`, `0.09`, `0.009`
and frequency multipliers `1×`, `10×`, `100×` of `SQRT_2 / 1000`). -/
def octave_val (perlin : Nat → ℚ → ℚ → ℚ) (x y : Int) : ℚ :=
  let fx : ℚ := (x : ℚ)
  let fy : ℚ := (y : ℚ)
  let factor : ℚ := sqrt2_f64 / 1000
  let val1 := perlin 1 (fx * factor) (fy * factor) * (9 / 10)
  let val2 := perlin 2 (fx * 10 * factor) (fy * 10 * factor) * (9 / 100)
  let val3 := perlin 3 (fx * 100 * factor) (fy * 100 * factor) * (9 / 1000)
  val1 + val2 + val3

/-- Truncation toward zero, the rounding of Rust's `as i32` cast on an
in-range `f64`. -/
def truncQ (q : ℚ) : Int :=
  if q < 0 then -⌊-q⌋ else ⌊q⌋

/-- Saturation of Rust's float-to-`i32` `as` cast. -/
def sat_i32 (v : Int) : Int :=
  max (-2147483648) (min 2147483647 v)

/-- The column height `h` of `Chunk::generate`:
`(val * (max_h - min_h) + min_h) as i32` with `min_h = -30.`, `max_h = 30.`. -/
def height_at (perlin : Nat → ℚ → ℚ → ℚ) (x y : Int) : Int :=
  let min_h : ℚ := -30
  let max_h : ℚ := 30
  sat_i32 (truncQ (octave_val perlin x y * (max_h - min_h) + min_h))

/-- The 32-entry weighted surface table of `Chunk::generate` (the literal
array indexed at `z == h`). -/
def surface_table (ids : BlockIds) : List Nat :=
  [ids.grass, ids.grass, ids.grass, ids.grass,
   ids.grass, ids.grass, ids.grass, ids.grass,
   ids.grass, ids.grass, ids.grass, ids.grass,
   ids.grass, ids.grass, ids.grass, ids.grass,
   ids.grass, ids.grass, ids.grass, ids.grass,
   ids.grass, ids.grass, ids.grass, ids.grass,
   ids.grass, ids.dirt, ids.grass, ids.dirt,
   ids.grass, ids.air, ids.grass, ids.cobblestone]

/-- The per-voxel layered block rule of `Chunk::generate` (the `idx`
expression), as a function of world height `z`, column height `h` and the
`u32` random draw `rand`. -/
def block_rule (ids : BlockIds) (z h : Int) (rand : Nat) : Nat :=
  if z = -128 then ids.bedrock
  else if z = -127 then
    [ids.stone, ids.cobblestone, ids.bedrock, ids.bedrock].getD (rand % 4) 0
  else if -126 ≤ z ∧ z < h - 9 then
    [ids.stone, ids.cobblestone].getD ((rand >>> 2) % 2) 0
  else if h - 9 ≤ z ∧ z < h - 4 then
    [ids.dirt, ids.dirt, ids.stone, ids.cobblestone].getD ((rand >>> 3) % 4) 0
  else if h - 4 ≤ z ∧ z < h then ids.dirt
  else if z = h then (surface_table ids).getD ((rand >>> 5) % 16) 0
  else ids.air

/-- The Xoshiro256++ state: the seed it was constructed from and how many
`next_u32` draws have happened. -/
structure Xrng where
  seed : Nat
  index : Nat

/-- Drawing `rand.next_u32()`: the stream value at the current index. -/
def rng_next (xo : Nat → Nat → Nat) (r : Xrng) : Nat × Xrng :=
  (xo r.seed r.index, ⟨r.seed, r.index + 1⟩)

/-- The RNG seed of `Chunk::generate`:
`(2 * location.x + 3 * location.y + 5 * location.z) as u64`, where the sum is
wrapping `i32` arithmetic and the cast sign-extends to 64 bits. -/
def seed_of (location : IVec3) : Nat :=
  ((Int.bmod (2 * location.x + 3 * location.y + 5 * location.z) (2 ^ 32)) %
    2 ^ 64).toNat

/-- One voxel of the generate loop body: compute the world coordinates
(`(location << 5) | block_loc`, which equals `32 * location + block_loc`
since the shifted value has clear low bits), the column height, draw
`rand.next_u32()`, and apply the block rule; the result is stored with an
`as i16` cast. -/
def voxel_block (perlin : Nat → ℚ → ℚ → ℚ) (xo : Nat → Nat → Nat)
    (ids : BlockIds) (location : IVec3) (k j i : Nat) (r : Xrng) : Int × Xrng :=
  let x : Int := 32 * location.x + (i : Int)
  let y : Int := 32 * location.y + (j : Int)
  let z : Int := 32 * location.z + (k : Int)
  let h := height_at perlin x y
  let rv := rng_next xo r
  (Int.bmod (block_rule ids z h rv.1 : Nat) (2 ^ 16), rv.2)

/-- One `z`-layer of the generate loop (the `j`/`i` loops, row-major with `j`
outer), threading the RNG state. -/
def fill_layer (perlin : Nat → ℚ → ℚ → ℚ) (xo : Nat → Nat → Nat)
    (ids : BlockIds) (location : IVec3) (k : Nat) (r0 : Xrng) :
    (Nat → Nat → Int) × Xrng :=
  (List.range 32).foldl
    (fun accj j =>
      (List.range 32).foldl
        (fun acci i =>
          let v := voxel_block perlin xo ids location k j i acci.2
          (fun j' i' => if j' = j ∧ i' = i then v.1 else acci.1 j' i', v.2))
        accj)
    (fun _ _ => 0, r0)

/-- The `'layer:` loop of `Chunk::generate` over the 32 `z`-layers.  The
world `z` of a layer is constant, so the in-loop range check
`!(-128..31).contains(&z)` with `continue 'layer` skips the whole layer at
its first voxel, before any RNG draw; skipped layers keep the zeroed
(`all air`) default contents. -/
def fill_contents (perlin : Nat → ℚ → ℚ → ℚ) (xo : Nat → Nat → Nat)
    (ids : BlockIds) (location : IVec3) : (Nat → Nat → Nat → Int) × Xrng :=
  (List.range 32).foldl
    (fun acck k =>
      let z : Int := 32 * location.z + (k : Nat)
      if -128 ≤ z ∧ z < 31 then
        let layer := fill_layer perlin xo ids location k acck.2
        (fun k' => if k' = k then layer.1 else acck.1 k', layer.2)
      else
        acck)
    (fun _ _ _ => 0, ⟨seed_of location, 0⟩)

/-- The generator `Chunk::generate` from `src/chunk.rs`.  `Self::default()` draws the fresh
nonce first; the eleven name lookups follow, and a failed lookup panics
(`none`) before any voxel is filled; otherwise the voxel fill loop runs.
Returns the generated chunk and the new nonce-counter state. -/
def generate (perlin : Nat → ℚ → ℚ → ℚ) (xo : Nat → Nat → Nat)
    (location : IVec3) (pack : Pack) (s : Nat) : Option (Chunk × Nat) :=
  let n := fresh_nonce s
  match lookup_ids pack with
  | none => none
  | some ids =>
    let c := fill_contents perlin xo ids location
    some ({ nonce := n.1, contents := fun z y x => c.1 z.val y.val x.val }, n.2)

/-! ### `Mesher` (`src/chunk.rs`)

The mesh cache stores shared (`Arc`) entries; shared-handle identity is
modelled by tagging each allocated entry with a fresh allocation id, so two
handles are reference-equal iff they are the same `MeshEntry` value built at
the same allocation. -/

/-- A cached `Arc<(u32, Vec<Vertex>, Vec<u32>)>`: allocation id (for `Arc`
identity) plus the `(nonce, vertices, indices)` payload. -/
structure MeshEntry where
  id : Nat
  nonce : Nat
  verts : List Vertex
  idxs : List Nat
deriving DecidableEq

/-- The `struct Mesher`: the `cached_meshes` map keyed by chunk coordinate
(modelled as an association list with at most one entry per key) and the
next allocation id. -/
structure Mesher where
  cached_meshes : List (IVec3 × MeshEntry)
  next_id : Nat

/-- Cache lookup `self.cached_meshes.get(&pos)`. -/
def find_entry (cache : List (IVec3 × MeshEntry)) (pos : IVec3) :
    Option MeshEntry :=
  (cache.find? fun e => decide (e.1 = pos)).map Prod.snd

/-- Block lookup `pack.blocks[id as usize]` as used by `Mesher::build_mesh`.  The source
indexing panics when `id` is out of range — the spec declares such an
identifier a fatal contract violation — so the lookup is modelled total with
a default in order to keep meshing a function. -/
def block_at (pack : Pack) (id : Int) : Block :=
  (pack.blocks.getD id.toNat ("", emptyBlock)).2

/-- The `neighbors` `DirMap` computed per voxel by `Mesher::build_mesh`:
same-chunk neighbors, with out-of-range directions (chunk faces) read as `0`
("air"). -/
def neighbors (c : Chunk) (k j i : Fin 32) : DirMap Int where
  west := if h : 0 < i.val then c.contents k j ⟨i.val - 1, by omega⟩ else 0
  east := if h : i.val < 31 then c.contents k j ⟨i.val + 1, by omega⟩ else 0
  south := if h : 0 < j.val then c.contents k ⟨j.val - 1, by omega⟩ i else 0
  north := if h : j.val < 31 then c.contents k ⟨j.val + 1, by omega⟩ i else 0
  down := if h : 0 < k.val then c.contents ⟨k.val - 1, by omega⟩ j i else 0
  up := if h : k.val < 31 then c.contents ⟨k.val + 1, by omega⟩ j i else 0

/-- The per-side quad selection of `Mesher::build_mesh` (the `flat_map`
closure): for an oriented side, emit the block's quads for that side unless
the neighbor's block definition culls the opposite direction; the free-form
(`None`) quad set is always emitted. -/
def side_quads (pack : Pack) (blk : Block) (nbrs : DirMap Int)
    (side : Option Direction) : List Quad :=
  match side with
  | some dir =>
    if (block_at pack (nbrs.get dir)).culls.get dir.opposite then []
    else blk.mesh.get (some dir)
  | none => blk.mesh.get none

/-- The four vertices of a quad, in order. -/
def quad_verts (q : Quad) : List Vertex :=
  [q.1, q.2.1, q.2.2.1, q.2.2.2]

/-- The vertex translation of `Mesher::build_mesh`: block-local position plus
`(32 * position + voxel offset)` per axis. -/
def translate_vertex (position : IVec3) (k j i : Fin 32) (v : Vertex) : Vertex :=
  { v with
    xyz :=
      ⟨v.xyz.x + (32 * (position.x : ℚ) + (i.val : ℚ)),
       v.xyz.y + (32 * (position.y : ℚ) + (j.val : ℚ)),
       v.xyz.z + (32 * (position.z : ℚ) + (k.val : ℚ))⟩ }

/-- All vertices emitted for one voxel: the surviving quads over all seven
sides, flattened to vertices and translated. -/
def voxel_verts (c : Chunk) (pack : Pack) (position : IVec3)
    (k j i : Fin 32) : List Vertex :=
  let blk := block_at pack (c.contents k j i)
  let nbrs := neighbors c k j i
  ((SIDES.flatMap (side_quads pack blk nbrs)).flatMap quad_verts).map
    (translate_vertex position k j i)

/-- The mesh recomputation of `Mesher::build_mesh`: iterate the `32³` grid
(`z` outer, then `y`, then `x`), appending each voxel's vertices and, for
each emitted quad, the six indices `[0, 1, 2, 3, 0, 2]` relative to the
quad's base vertex. -/
def mesh_data (c : Chunk) (position : IVec3) (pack : Pack) :
    List Vertex × List Nat :=
  (List.finRange 32).foldl
    (fun acck k =>
      (List.finRange 32).foldl
        (fun accj j =>
          (List.finRange 32).foldl
            (fun acci i =>
              let vs := voxel_verts c pack position k j i
              let base := acci.1.length
              let num_quads := vs.length / 4
              (acci.1 ++ vs,
               acci.2 ++ (List.range num_quads).flatMap
                 fun n => [0, 1, 2, 3, 0, 2].map fun t => base + 4 * n + t))
            accj)
        acck)
    ([], [])

/-- The cache-miss path of `Mesher::build_mesh`: recompute the mesh, allocate
a fresh shared entry `(chunk.nonce, vertices, indices)`, insert it for
`position` (replacing any prior entry for that key), and return it. -/
def miss_build (m : Mesher) (chunk : Chunk) (position : IVec3) (pack : Pack) :
    MeshEntry × Mesher :=
  let d := mesh_data chunk position pack
  let entry : MeshEntry := ⟨m.next_id, chunk.nonce, d.1, d.2⟩
  (entry,
   ⟨(position, entry) :: m.cached_meshes.filter fun e => decide (e.1 ≠ position),
    m.next_id + 1⟩)

/-- The method `Mesher::build_mesh` from `src/chunk.rs`: return the cached shared handle
when the cached nonce matches the chunk's nonce, otherwise rebuild and
replace the cache entry. -/
def build_mesh (m : Mesher) (chunk : Chunk) (position : IVec3) (pack : Pack) :
    MeshEntry × Mesher :=
  match find_entry m.cached_meshes position with
  | some entry =>
    if entry.nonce = chunk.nonce then (entry, m)
    else miss_build m chunk position pack
  | none => miss_build m chunk position pack

/-! ### `World` (`src/world.rs`) -/

/-- The `struct World`: the loaded-chunk table, keyed by chunk coordinate
(modelled as an association list). -/
structure World where
  loaded_chunks : List (IVec3 × Chunk)

/-- Shifting `location >> 5` per axis (arithmetic shift): the coordinate of the chunk
containing a world position. -/
def chunk_of (location : IVec3) : IVec3 :=
  ⟨location.x >>> (5 : Nat), location.y >>> (5 : Nat), location.z >>> (5 : Nat)⟩

/-- Wrapping of a value into `i32`, i.e. two's-complement truncation to
`[-2^31, 2^31)`: the release-profile behavior of overflowing `i32` arithmetic
(in a debug build those overflows panic instead). -/
def wrap_i32 (a : Int) : Int :=
  Int.bmod a (2 ^ 32)

/-- Squared distance `glam::IVec3::distance_squared`, i.e.
`(self - other).dot(self - other)` computed in `i32` arithmetic: each
component subtraction, each product and each (left-associated) addition
wraps at `i32` in a release build. -/
def distance_squared (a b : IVec3) : Int :=
  let dx := wrap_i32 (a.x - b.x)
  let dy := wrap_i32 (a.y - b.y)
  let dz := wrap_i32 (a.z - b.z)
  wrap_i32 (wrap_i32 (wrap_i32 (dx * dx) + wrap_i32 (dy * dy)) + wrap_i32 (dz * dz))

/-- The exact (unbounded) squared Euclidean distance the spec speaks of,
for comparison with the `i32` computation above. -/
def distance_squared_exact (a b : IVec3) : Int :=
  (a.x - b.x) * (a.x - b.x) + (a.y - b.y) * (a.y - b.y) +
    (a.z - b.z) * (a.z - b.z)

/-- The query `World::build_meshes` from `src/world.rs`: filter the loaded chunks to
those with squared chunk-space distance to `location >> 5` strictly less than
`distance * distance`, and build (or fetch) each one's mesh, threading the
mesher.  Both the distance and the bound `distance * distance` are `i32`
computations (wrapping in release). -/
def build_meshes (w : World) (m : Mesher) (location : IVec3) (pack : Pack)
    (distance : Int) : List (IVec3 × MeshEntry) × Mesher :=
  (w.loaded_chunks.filter fun e =>
      decide (distance_squared (chunk_of location) e.1 <
        wrap_i32 (distance * distance))).foldl
    (fun acc e =>
      let r := build_mesh acc.2 e.2 e.1 pack
      (acc.1 ++ [(e.1, r.1)], r.2))
    ([], m)

/-! ### Theorems -/

/-- A scratch all-air chunk with nonce `0`, used for concrete instances. -/
def chunk0 : Chunk :=
  ⟨0, fun _ _ _ => 0⟩

theorem maskFin_add_mul (a b : Int) : maskFin (a + 32 * b) = maskFin a := by
  apply Fin.ext
  show ((a + 32 * b) % 32).toNat = (a % 32).toNat
  omega

/-- C3: For every chunk, every coordinate (including negative components) and
every integer vector `k`, reading the chunk at `c` equals reading it at
`c + 32 * k`; each axis of the index is wrapped by masking to the low 5 bits,
which equals reduction modulo 32, and indexing is total by construction. -/
theorem c3_wraparound_invariant :
    (∀ (c : Chunk) (v k : IVec3),
        c.get ⟨v.x + 32 * k.x, v.y + 32 * k.y, v.z + 32 * k.z⟩ = c.get v) ∧
    (∀ a : Int, (Int.land a 31).toNat = mask31 a) := by
  constructor
  · intro c v k
    show c.contents (maskFin (v.z + 32 * k.z)) (maskFin (v.y + 32 * k.y))
        (maskFin (v.x + 32 * k.x)) = _
    rw [maskFin_add_mul, maskFin_add_mul, maskFin_add_mul]
    rfl
  · intro a
    rw [int_land_31]
    rfl

/-- Iterated `Chunk::place` on a scratch cell, starting from a fresh process
(nonce counter `0`): the trace of nonce assignments the claim quantifies
over. -/
def place_iter (c : Chunk) : Nat → Chunk × Nat
  | 0 => (c, 0)
  | k + 1 =>
    let p := place_iter c k
    p.1.place ⟨0, 0, 0⟩ 1 p.2

theorem place_iter_state (c : Chunk) (k : Nat) :
    (place_iter c k).2 = k % 2 ^ 32 := by
  induction k with
  | zero => rfl
  | succ k ih =>
    show ((place_iter c k).2 + 1) % 2 ^ 32 = (k + 1) % 2 ^ 32
    rw [ih, Nat.mod_add_mod]

theorem place_iter_nonce (c : Chunk) (k : Nat) :
    (place_iter c (k + 1)).1.nonce = k % 2 ^ 32 := by
  show (place_iter c k).2 = k % 2 ^ 32
  exact place_iter_state c k

/-- C2 counterexample: the global nonce counter is a wrapping `u32`
(`AtomicU32::fetch_add`), so the claim "any two calls to place never produce
the same nonce" fails: the 1st and the `2^32 + 1`-th `place` calls of a
process are assigned the same nonce, and the nonce assigned by the
`2^32 + 1`-th call is strictly below the one assigned by the `2^32`-th call
(so the mutated chunk's nonce also fails to strictly increase there). -/
theorem c2_counterexample :
    (place_iter chunk0 1).1.nonce = (place_iter chunk0 (2 ^ 32 + 1)).1.nonce ∧
    (1 : Nat) ≠ 2 ^ 32 + 1 ∧
    (place_iter chunk0 (2 ^ 32 + 1)).1.nonce <
      (place_iter chunk0 (2 ^ 32)).1.nonce := by
  rw [place_iter_nonce, place_iter_nonce,
    show (2 : Nat) ^ 32 = (2 ^ 32 - 1) + 1 from by omega, place_iter_nonce]
  refine ⟨?_, by omega, ?_⟩
  · rw [Nat.mod_self, Nat.zero_mod]
  · rw [Nat.mod_self, Nat.mod_eq_of_lt (by omega)]
    omega

/-- C2 (amended): after `place(c, v)` the cell at the wrapped coordinate
equals `v`; the chunk's nonce strictly increases provided the chunk's nonce
is below the current counter (true until the counter wraps); and the nonces
assigned by any two distinct `place` calls among the first `2^32` of a
process are distinct. -/
theorem c2_place_nonce :
    (∀ (c : Chunk) (v : IVec3) (b : Int) (s : Nat),
        ((c.place v b s).1).get v = b) ∧
    (∀ (c : Chunk) (v : IVec3) (b : Int) (s : Nat),
        c.nonce < s → c.nonce < ((c.place v b s).1).nonce) ∧
    (∀ i j : Nat, i < j → j < 2 ^ 32 →
        (place_iter chunk0 (i + 1)).1.nonce ≠
          (place_iter chunk0 (j + 1)).1.nonce) := by
  refine ⟨?_, ?_, ?_⟩
  · intro c v b s
    simp [Chunk.place, Chunk.get]
  · intro c v b s h
    exact h
  · intro i j hij hj
    rw [place_iter_nonce, place_iter_nonce,
      Nat.mod_eq_of_lt (by omega), Nat.mod_eq_of_lt hj]
    omega

theorem c2_place_nonce_witness :
    ((chunk0.place ⟨1, 2, 3⟩ 7 5).1).get ⟨1, 2, 3⟩ = 7 ∧
    chunk0.nonce < ((chunk0.place ⟨1, 2, 3⟩ 7 5).1).nonce ∧
    (place_iter chunk0 1).1.nonce ≠ (place_iter chunk0 2).1.nonce :=
  ⟨c2_place_nonce.1 chunk0 ⟨1, 2, 3⟩ 7 5,
   c2_place_nonce.2.1 chunk0 ⟨1, 2, 3⟩ 7 5 (by decide),
   c2_place_nonce.2.2 0 1 (by decide) (by decide)⟩

/-- C10: `place` modifies only the cell at the wrapped coordinate (and the
nonce): every other cell of the `32³` contents holds the same identifier
after the call as before it. -/
theorem c10_place_frame :
    ∀ (c : Chunk) (v : IVec3) (b : Int) (s : Nat) (z y x : Fin 32),
      ¬(z = maskFin v.z ∧ y = maskFin v.y ∧ x = maskFin v.x) →
      ((c.place v b s).1).contents z y x = c.contents z y x := by
  intro c v b s z y x h
  simp only [Chunk.place]
  rw [if_neg h]

theorem c10_place_frame_witness :
    ((chunk0.place ⟨0, 0, 0⟩ 7 0).1).contents 1 1 1 = chunk0.contents 1 1 1 :=
  c10_place_frame chunk0 ⟨0, 0, 0⟩ 7 0 1 1 1 (by decide)

/-- C5: terrain generation is a pure function of the chunk coordinate and
pack.  With the (fixed-seed) noise fields and the coordinate-seeded RNG
stream held fixed, two `Chunk::generate` calls with the same coordinate and
pack — in particular from different global nonce-counter states — produce
identical `32³` voxel contents. -/
theorem c5_generate_deterministic :
    ∀ (perlin : Nat → ℚ → ℚ → ℚ) (xo : Nat → Nat → Nat) (location : IVec3)
      (pack : Pack) (s1 s2 : Nat),
      (generate perlin xo location pack s1).map (fun p => p.1.contents) =
        (generate perlin xo location pack s2).map (fun p => p.1.contents) := by
  intro perlin xo location pack s1 s2
  unfold generate
  cases lookup_ids pack <;> rfl

/-- C7: the `z == h` branch of the generate rule indexes the 32-entry surface
table with `(rand >> 5) % 16`, so only the first 16 entries — all
`grass` — are ever selected: for every random draw the surface voxel is
grass, and the dirt/air/cobblestone entries in the table's second half are
unreachable (contradicting the claim that every entry is selected for some
draw). -/
theorem c7_surface_pick_always_grass :
    ∀ (ids : BlockIds) (rand : Nat) (h : Int), -126 ≤ h →
      block_rule ids h h rand = ids.grass := by
  intro ids rand h hh
  unfold block_rule
  rw [if_neg (by omega), if_neg (by omega), if_neg (by omega),
    if_neg (by omega), if_neg (by omega), if_pos rfl]
  have hlt : (rand >>> 5) % 16 < 16 := Nat.mod_lt _ (by omega)
  set m := (rand >>> 5) % 16 with hm
  clear_value m
  interval_cases m <;> rfl

/-- Concrete block identifiers for witness instances. -/
def idsW : BlockIds :=
  ⟨0, 1, 2, 3, 4, 5, 6, 7, 8, 9, 10⟩

theorem c7_surface_pick_always_grass_witness :
    block_rule idsW 0 0 0 = idsW.grass :=
  c7_surface_pick_always_grass idsW 0 0 (by decide)

/-- C8 counterexample: with all three noise samples equal to `-1` (within the
assumed `[-1, 1]` sample range), the combined value is `-999/1000 ∈ [-1, 1]`
but the remapped column height is `-89`, far outside the claimed `[-30, 30]`:
the code maps `val ∈ [-1, 1]` to `h ∈ [-90, 30]`, not `[-30, 30]`. -/
theorem c8_counterexample :
    |(-1 : ℚ)| ≤ 1 ∧
    octave_val (fun _ _ _ => -1) 0 0 = -999 / 1000 ∧
    height_at (fun _ _ _ => -1) 0 0 = -89 ∧
    ¬(-30 ≤ height_at (fun _ _ _ => -1) 0 0 ∧
      height_at (fun _ _ _ => -1) 0 0 ≤ 30) := by
  refine ⟨by norm_num, by norm_num [octave_val], ?_, ?_⟩ <;>
    norm_num [height_at, octave_val, truncQ, sat_i32]

/-- C8 (amended): assuming each noise sample lies in `[-1, 1]`, the weighted
three-octave sum lies in `[-999/1000, 999/1000] ⊆ [-1, 1]`, and the remapped
column height lies in `[-89, 29]` (not `[-30, 30]`: the affine remap sends
`[-1, 1]` to `[-90, 30]` and `as i32` truncates toward zero). -/
theorem weighted_tri (A B C : ℚ) (hA : |A| ≤ 1) (hB : |B| ≤ 1) (hC : |C| ≤ 1) :
    |A * (9 / 10) + B * (9 / 100) + C * (9 / 1000)| ≤ 999 / 1000 := by
  have key : ∀ p c : ℚ, 0 ≤ c → |p| ≤ 1 → |p * c| ≤ c := by
    intro p c hc hp
    rw [abs_mul, abs_of_nonneg hc]
    nlinarith [abs_nonneg p]
  have k1 := key A (9 / 10) (by norm_num) hA
  have k2 := key B (9 / 100) (by norm_num) hB
  have k3 := key C (9 / 1000) (by norm_num) hC
  calc |A * (9 / 10) + B * (9 / 100) + C * (9 / 1000)|
      ≤ |A * (9 / 10) + B * (9 / 100)| + |C * (9 / 1000)| := abs_add _ _
    _ ≤ (|A * (9 / 10)| + |B * (9 / 100)|) + |C * (9 / 1000)| :=
        add_le_add_right (abs_add _ _) _
    _ ≤ 999 / 1000 := by linarith

theorem trunc_sat_bounds (t : ℚ) (hl : -(8994 / 100) ≤ t)
    (hu : t ≤ 2994 / 100) :
    -89 ≤ sat_i32 (truncQ t) ∧ sat_i32 (truncQ t) ≤ 29 := by
  have htr : -89 ≤ truncQ t ∧ truncQ t ≤ 29 := by
    unfold truncQ
    rcases lt_or_ge t 0 with hneg | hpos
    · rw [if_pos hneg]
      have hfl : ⌊-t⌋ ≤ 89 := by
        rw [Int.floor_le_iff]
        push_cast
        linarith
      have hf0 : 0 ≤ ⌊-t⌋ := Int.floor_nonneg.mpr (by linarith)
      omega
    · rw [if_neg (not_lt.mpr hpos)]
      have hfl : ⌊t⌋ ≤ 29 := by
        rw [Int.floor_le_iff]
        push_cast
        linarith
      have hf0 : 0 ≤ ⌊t⌋ := Int.floor_nonneg.mpr hpos
      omega
  rw [sat_i32, min_eq_right (by omega), max_eq_right (by omega)]
  exact htr

theorem c8_height_range (perlin : Nat → ℚ → ℚ → ℚ) (x y : Int)
    (h1 : ∀ a b, |perlin 1 a b| ≤ 1) (h2 : ∀ a b, |perlin 2 a b| ≤ 1)
    (h3 : ∀ a b, |perlin 3 a b| ≤ 1) :
    |octave_val perlin x y| ≤ 999 / 1000 ∧
    -89 ≤ height_at perlin x y ∧ height_at perlin x y ≤ 29 := by
  have hsum : |octave_val perlin x y| ≤ 999 / 1000 := by
    simp only [octave_val]
    exact weighted_tri _ _ _ (h1 _ _) (h2 _ _) (h3 _ _)
  refine ⟨hsum, ?_⟩
  obtain ⟨hvl, hvu⟩ := abs_le.mp hsum
  simp only [height_at]
  exact trunc_sat_bounds _ (by linarith) (by linarith)

theorem c8_height_range_witness :
    |octave_val (fun _ _ _ => 0) 0 0| ≤ 999 / 1000 ∧
    -89 ≤ height_at (fun _ _ _ => 0) 0 0 ∧
    height_at (fun _ _ _ => 0) 0 0 ≤ 29 :=
  c8_height_range (fun _ _ _ => 0) 0 0 (fun a b => by norm_num)
    (fun a b => by norm_num) (fun a b => by norm_num)

theorem string_compare_eq {a b : String} (h : compare a b = .eq) : a = b := by
  simp only [compare, compareOfLessAndEq] at h
  split_ifs at h
  assumption

/-- Since `binary_search_by` probes only list elements, and returns `Ok` only when a
probe compares `Equal`; so when the target name is not in the list the search
fails, whatever the list's ordering. -/
theorem bs_go_not_mem (xs : List (String × Block)) (t : String)
    (hmem : ∀ p ∈ xs, p.1 ≠ t) :
    ∀ n left right, right - left ≤ n → right ≤ xs.length →
      bs_go xs t left right = none := by
  intro n
  induction n with
  | zero =>
    intro left right hle hr
    unfold bs_go
    rw [dif_neg (by omega)]
  | succ n ih =>
    intro left right hle hr
    unfold bs_go
    split
    · rename_i hlr
      have hmidlt : left + (right - left) / 2 < right := by omega
      have hprobe : (xs.getD (left + (right - left) / 2) ("", emptyBlock)).1 ≠ t := by
        apply hmem
        have hlt : left + (right - left) / 2 < xs.length := by omega
        rw [List.getD_eq_getElem?_getD, List.getElem?_eq_getElem hlt,
          Option.getD_some]
        exact List.getElem_mem hlt
      cases hcmp : compare (xs.getD (left + (right - left) / 2) ("", emptyBlock)).1 t with
      | lt =>
        simp only [hcmp]
        exact ih _ _ (by omega) hr
      | eq => exact absurd (string_compare_eq hcmp) hprobe
      | gt =>
        simp only [hcmp]
        exact ih _ _ (by omega) (by omega)
    · rfl

theorem binary_search_not_mem (pack : Pack) (t : String)
    (hmem : t ∉ pack.blocks.map Prod.fst) :
    binary_search_name pack t = none := by
  apply bs_go_not_mem pack.blocks t _ pack.blocks.length 0 pack.blocks.length
    (by omega) le_rfl
  intro p hp he
  exact hmem (he ▸ List.mem_map_of_mem Prod.fst hp)

/-- A successful `lookup_ids` needs every required name present in the
pack's block-name table. -/
theorem lookup_ids_mem (pack : Pack) (ids : BlockIds)
    (h : lookup_ids pack = some ids) :
    ∀ name ∈ requiredNames, name ∈ pack.blocks.map Prod.fst := by
  intro name hname
  by_contra hmiss
  have hnone := binary_search_not_mem pack name hmiss
  simp only [requiredNames, List.mem_cons, List.not_mem_nil, or_false] at hname
  rcases hname with rfl | rfl | rfl | rfl | rfl | rfl | rfl | rfl | rfl | rfl | rfl <;>
    simp only [lookup_ids, hnone, Option.bind_eq_some, Option.none_bind,
      reduceCtorEq, false_and, exists_false, and_false, exists_const] at h

/-- C9: if any block name required by `Chunk::generate` is missing from the
pack's block-name table, generation fails fatally (panics) at generation
start: all eleven lookups happen before the voxel fill loop, so no chunk —
in particular no partially filled chunk, and none with the block silently
replaced by air — is ever produced. -/
theorem c9_missing_name_fatal :
    ∀ (perlin : Nat → ℚ → ℚ → ℚ) (xo : Nat → Nat → Nat) (location : IVec3)
      (pack : Pack) (s : Nat) (name : String),
      name ∈ requiredNames → name ∉ pack.blocks.map Prod.fst →
      generate perlin xo location pack s = none := by
  intro perlin xo location pack s name hreq hmiss
  unfold generate
  cases hl : lookup_ids pack with
  | none => rfl
  | some ids => exact absurd (lookup_ids_mem pack ids hl name hreq) hmiss

/-- A pack with an empty block table, for the witness below. -/
def packEmpty : Pack := ⟨[]⟩

theorem c9_missing_name_fatal_witness :
    generate (fun _ _ _ => 0) (fun _ _ => 0) ⟨0, 0, 0⟩ packEmpty 0 = none :=
  c9_missing_name_fatal (fun _ _ _ => 0) (fun _ _ => 0) ⟨0, 0, 0⟩ packEmpty 0
    "air" (by decide) (by decide)

theorem find_entry_cons_self (cache : List (IVec3 × MeshEntry)) (position : IVec3)
    (e : MeshEntry) : find_entry ((position, e) :: cache) position = some e := by
  unfold find_entry
  rw [List.find?_cons_of_pos _ (by simp)]
  rfl

theorem find_entry_cons_ne (cache : List (IVec3 × MeshEntry)) (position q : IVec3)
    (e : MeshEntry) (h : q ≠ position) :
    find_entry ((position, e) :: cache) q = find_entry cache q := by
  unfold find_entry
  rw [List.find?_cons_of_neg _ (by simpa using fun hh => h hh.symm)]

theorem find_entry_filter_ne (cache : List (IVec3 × MeshEntry)) (position q : IVec3)
    (h : q ≠ position) :
    find_entry (cache.filter fun e => decide (e.1 ≠ position)) q =
      find_entry cache q := by
  induction cache with
  | nil => rfl
  | cons e l ih =>
    by_cases he : e.1 = position
    · rw [List.filter_cons_of_neg (by simp [he])]
      rw [ih]
      unfold find_entry
      rw [List.find?_cons_of_neg _
        (by simp only [decide_eq_true_eq]; exact fun hh => h (hh ▸ he))]
    · rw [List.filter_cons_of_pos (by simp [he])]
      by_cases hq : e.1 = q
      · unfold find_entry
        rw [List.find?_cons_of_pos _ (by simp [hq]),
          List.find?_cons_of_pos _ (by simp [hq])]
      · unfold find_entry at ih ⊢
        rw [List.find?_cons_of_neg _ (by simp [hq]),
          List.find?_cons_of_neg _ (by simp [hq])]
        exact ih

/-- What the recomputation path of `build_mesh` guarantees: the returned
handle is freshly allocated, carries the chunk's current nonce and the
recomputed `(vertices, indices)`, and the new entry replaces any prior cache
entry for this coordinate while every other coordinate's entry is
untouched. -/
def MissSpec (m : Mesher) (chunk : Chunk) (position : IVec3) (pack : Pack) : Prop :=
  let r := build_mesh m chunk position pack
  r.1.nonce = chunk.nonce ∧
  r.1.verts = (mesh_data chunk position pack).1 ∧
  r.1.idxs = (mesh_data chunk position pack).2 ∧
  r.1.id = m.next_id ∧
  r.2.next_id = m.next_id + 1 ∧
  find_entry r.2.cached_meshes position = some r.1 ∧
  ∀ q : IVec3, q ≠ position →
    find_entry r.2.cached_meshes q = find_entry m.cached_meshes q

theorem miss_build_spec (m : Mesher) (chunk : Chunk) (position : IVec3)
    (pack : Pack)
    (hmiss : build_mesh m chunk position pack = miss_build m chunk position pack) :
    MissSpec m chunk position pack := by
  unfold MissSpec
  rw [hmiss]
  refine ⟨rfl, rfl, rfl, rfl, rfl, find_entry_cons_self _ _ _, ?_⟩
  intro q hq
  show find_entry ((position, _) :: _) q = _
  rw [find_entry_cons_ne _ _ _ _ hq]
  exact find_entry_filter_ne _ _ _ hq

theorem build_mesh_of_cached (m : Mesher) (chunk : Chunk) (position : IVec3)
    (pack : Pack) (e : MeshEntry)
    (hf : find_entry m.cached_meshes position = some e)
    (hn : e.nonce = chunk.nonce) :
    build_mesh m chunk position pack = (e, m) := by
  simp only [build_mesh, hf, if_pos hn]

/-- C1: `build_mesh` returns the cached entry's shared handle — the very same
allocation, with the mesher state untouched — exactly when a cached entry for
the coordinate stores the chunk's current nonce; otherwise it recomputes, and
the fresh `(nonce, vertices, indices)` entry replaces any prior entry for the
coordinate ( other coordinates unchanged).  Consequently two consecutive
`build_mesh` calls on an unchanged chunk return the same handle and leave the
mesher unchanged. -/
theorem c1_build_mesh_cache :
    ∀ (m : Mesher) (chunk : Chunk) (position : IVec3) (pack : Pack),
      (match find_entry m.cached_meshes position with
       | some entry =>
         if entry.nonce = chunk.nonce then
           build_mesh m chunk position pack = (entry, m)
         else MissSpec m chunk position pack
       | none => MissSpec m chunk position pack) ∧
      build_mesh (build_mesh m chunk position pack).2 chunk position pack =
        build_mesh m chunk position pack := by
  intro m chunk position pack
  have hsecond : build_mesh (build_mesh m chunk position pack).2 chunk position
      pack = build_mesh m chunk position pack := by
    cases hf : find_entry m.cached_meshes position with
    | some entry =>
      by_cases hn : entry.nonce = chunk.nonce
      · rw [build_mesh_of_cached m chunk position pack entry hf hn]
        exact build_mesh_of_cached m chunk position pack entry hf hn
      · have hm : build_mesh m chunk position pack =
            miss_build m chunk position pack := by
          simp only [build_mesh, hf, if_neg hn]
        rw [hm, build_mesh_of_cached _ chunk position pack _
          (find_entry_cons_self _ _ _) rfl]
        rfl
    | none =>
      have hm : build_mesh m chunk position pack =
          miss_build m chunk position pack := by
        simp only [build_mesh, hf]
      rw [hm, build_mesh_of_cached _ chunk position pack _
        (find_entry_cons_self _ _ _) rfl]
      rfl
  refine ⟨?_, hsecond⟩
  split
  · rename_i entry hf
    by_cases hn : entry.nonce = chunk.nonce
    · rw [if_pos hn]
      exact build_mesh_of_cached m chunk position pack entry hf hn
    · rw [if_neg hn]
      apply miss_build_spec
      simp only [build_mesh, hf, if_neg hn]
  · rename_i hf
    apply miss_build_spec
    simp only [build_mesh, hf]

/-- A cached entry, chunk and mesher forming a concrete cache hit. -/
def entryW : MeshEntry := ⟨0, 5, [], []⟩

def chunkW : Chunk := ⟨5, fun _ _ _ => 0⟩

def mesherW : Mesher := ⟨[(⟨0, 0, 0⟩, entryW)], 1⟩

theorem c1_build_mesh_cache_witness :
    build_mesh mesherW chunkW ⟨0, 0, 0⟩ packEmpty = (entryW, mesherW) ∧
    build_mesh (build_mesh mesherW chunkW ⟨0, 0, 0⟩ packEmpty).2 chunkW
        ⟨0, 0, 0⟩ packEmpty =
      build_mesh mesherW chunkW ⟨0, 0, 0⟩ packEmpty :=
  ⟨(c1_build_mesh_cache mesherW chunkW ⟨0, 0, 0⟩ packEmpty).1,
   (c1_build_mesh_cache mesherW chunkW ⟨0, 0, 0⟩ packEmpty).2⟩

/-- Modelled from the spec: the same-chunk neighbor value of voxel
`(i, j, k)` in direction `d` — the voxel at offset `IVec3::from(d)` — where a
neighbor position outside the `32 × 32 × 32` grid is treated as air (`0`), so
meshing never reads another chunk. -/
def neighbor_value_spec (c : Chunk) (k j i : Fin 32) (d : Direction) : Int :=
  let px : Int := (i.val : Int) + (dir_vec d).x
  let py : Int := (j.val : Int) + (dir_vec d).y
  let pz : Int := (k.val : Int) + (dir_vec d).z
  if h : 0 ≤ px ∧ px < 32 ∧ 0 ≤ py ∧ py < 32 ∧ 0 ≤ pz ∧ pz < 32 then
    c.contents ⟨pz.toNat, by omega⟩ ⟨py.toNat, by omega⟩ ⟨px.toNat, by omega⟩
  else 0

/-- C4: for every voxel and each of the six oriented faces, the face's quads
are emitted iff the same-chunk neighbor voxel in that direction does not
have a block definition whose `culls` flag for the opposite direction is
true; a neighbor position outside the grid (chunk face) is read as air
(identifier `0`), and the free-form (`None`) quad set is always emitted. -/
theorem c4_face_culling :
    ∀ (c : Chunk) (pack : Pack) (k j i : Fin 32) (d : Direction),
      (neighbors c k j i).get d = neighbor_value_spec c k j i d ∧
      side_quads pack (block_at pack (c.contents k j i)) (neighbors c k j i)
          (some d) =
        (if (block_at pack (neighbor_value_spec c k j i d)).culls.get d.opposite
          then []
          else (block_at pack (c.contents k j i)).mesh.get (some d)) ∧
      side_quads pack (block_at pack (c.contents k j i)) (neighbors c k j i)
          none =
        (block_at pack (c.contents k j i)).mesh.get none := by
  intro c pack k j i d
  have hi := i.isLt
  have hj := j.isLt
  have hk := k.isLt
  have hnb : (neighbors c k j i).get d = neighbor_value_spec c k j i d := by
    cases d <;>
      (simp only [neighbors, DirMap.get, neighbor_value_spec, dir_vec]
       split <;> split <;>
         first
           | rfl
           | omega
           | (congr 1 <;> first | rfl | (apply Fin.ext; simp; omega)))
  refine ⟨hnb, ?_, rfl⟩
  simp only [side_quads]
  rw [hnb]

theorem build_meshes_fold_fst (pack : Pack) (l : List (IVec3 × Chunk)) :
    ∀ (acc : List (IVec3 × MeshEntry)) (m : Mesher),
      ((l.foldl
          (fun acc e =>
            let r := build_mesh acc.2 e.2 e.1 pack
            (acc.1 ++ [(e.1, r.1)], r.2))
          (acc, m)).1).map Prod.fst =
        acc.map Prod.fst ++ l.map Prod.fst := by
  induction l with
  | nil =>
    intro acc m
    simp
  | cons e l ih =>
    intro acc m
    rw [List.foldl_cons]
    rw [ih]
    simp

theorem wrap_i32_eq_self (a : Int) (h1 : -2 ^ 31 ≤ a) (h2 : a < 2 ^ 31) :
    wrap_i32 a = a := by
  unfold wrap_i32
  simp only [Int.bmod]
  split <;> omega

/-- When the exact squared distance fits in `i32`, so do every component
difference, every square and every partial sum, and the `i32` computation
agrees with the exact one. -/
theorem distance_squared_eq_exact (a b : IVec3)
    (h : distance_squared_exact a b < 2 ^ 31) :
    distance_squared a b = distance_squared_exact a b := by
  have hx := mul_self_nonneg (a.x - b.x)
  have hy := mul_self_nonneg (a.y - b.y)
  have hz := mul_self_nonneg (a.z - b.z)
  unfold distance_squared_exact at h
  have hxb : (a.x - b.x) * (a.x - b.x) < 2 ^ 31 := by linarith
  have hyb : (a.y - b.y) * (a.y - b.y) < 2 ^ 31 := by linarith
  have hzb : (a.z - b.z) * (a.z - b.z) < 2 ^ 31 := by linarith
  have hx1 : a.x - b.x < 2 ^ 31 := by nlinarith
  have hx2 : -2 ^ 31 ≤ a.x - b.x := by nlinarith
  have hy1 : a.y - b.y < 2 ^ 31 := by nlinarith
  have hy2 : -2 ^ 31 ≤ a.y - b.y := by nlinarith
  have hz1 : a.z - b.z < 2 ^ 31 := by nlinarith
  have hz2 : -2 ^ 31 ≤ a.z - b.z := by nlinarith
  simp only [distance_squared, distance_squared_exact]
  rw [wrap_i32_eq_self (a.x - b.x) hx2 hx1,
    wrap_i32_eq_self (a.y - b.y) hy2 hy1,
    wrap_i32_eq_self (a.z - b.z) hz2 hz1,
    wrap_i32_eq_self ((a.x - b.x) * (a.x - b.x)) (by linarith) hxb,
    wrap_i32_eq_self ((a.y - b.y) * (a.y - b.y)) (by linarith) hyb,
    wrap_i32_eq_self ((a.z - b.z) * (a.z - b.z)) (by linarith) hzb,
    wrap_i32_eq_self ((a.x - b.x) * (a.x - b.x) + (a.y - b.y) * (a.y - b.y))
      (by linarith) (by linarith),
    wrap_i32_eq_self _ (by linarith) h]

/-- A world holding chunks at `(0,0,0)` (squared distance `0 = 1² - 1` from
the focal chunk) and `(1,0,0)` (squared distance `1 = 1²`). -/
def worldW : World := ⟨[(⟨0, 0, 0⟩, chunkW), (⟨1, 0, 0⟩, chunkW)]⟩

/-- A world holding one chunk 65536 chunks away from the origin, with a
matching mesh-cache entry so its query is a cache hit. -/
def worldFar : World := ⟨[(⟨65536, 0, 0⟩, chunkW)]⟩

def mesherFar : Mesher := ⟨[(⟨65536, 0, 0⟩, entryW)], 1⟩

/-- C6 counterexample: both the radius bound `distance * distance` and the
per-chunk `distance_squared` are `i32` computations that wrap.  With
`distance = 46341` the bound `46341²` wraps negative, so a loaded chunk at
exact squared distance `0 < 46341²` is not yielded; and with `distance = 1` a
chunk `65536` chunks away (exact squared distance `2^32 ≥ 1`) has a wrapped
squared distance of `0` and is yielded.  Both contradict the claim's exact
strict-`<` characterization. -/
theorem c6_counterexample :
    (distance_squared_exact (chunk_of ⟨0, 0, 0⟩) ⟨0, 0, 0⟩ < 46341 * 46341 ∧
      (⟨0, 0, 0⟩ : IVec3) ∉
        (build_meshes worldW mesherW ⟨0, 0, 0⟩ packEmpty 46341).1.map Prod.fst) ∧
    (¬ distance_squared_exact (chunk_of ⟨0, 0, 0⟩) ⟨65536, 0, 0⟩ < 1 * 1 ∧
      (⟨65536, 0, 0⟩ : IVec3) ∈
        (build_meshes worldFar mesherFar ⟨0, 0, 0⟩ packEmpty 1).1.map Prod.fst) := by
  decide

/-- C6 (amended): provided `distance * distance` and the exact squared
distance of every loaded chunk to the focal chunk fit in `i32` (no overflow),
the coordinates yielded by `World::build_meshes` are exactly the loaded
chunks whose chunk coordinate lies at squared Euclidean distance strictly
less than `distance²` from the chunk containing `location` (computed as
`location >> 5` per axis): a loaded chunk at squared distance exactly
`distance²` is excluded, one at `distance² - 1` is included. -/
theorem c6_build_meshes_radius :
    ∀ (w : World) (m : Mesher) (location : IVec3) (pack : Pack)
      (distance : Int),
      distance * distance < 2 ^ 31 →
      (∀ p ∈ w.loaded_chunks.map Prod.fst,
        distance_squared_exact (chunk_of location) p < 2 ^ 31) →
      ((build_meshes w m location pack distance).1.map Prod.fst =
        (w.loaded_chunks.filter fun e =>
            decide (distance_squared_exact (chunk_of location) e.1 <
              distance * distance)).map Prod.fst) ∧
      (∀ p : IVec3,
        p ∈ (build_meshes w m location pack distance).1.map Prod.fst ↔
          p ∈ w.loaded_chunks.map Prod.fst ∧
            distance_squared_exact (chunk_of location) p < distance * distance) ∧
      (∀ p : IVec3,
        distance_squared_exact (chunk_of location) p = distance * distance →
          p ∉ (build_meshes w m location pack distance).1.map Prod.fst) ∧
      (∀ p : IVec3, p ∈ w.loaded_chunks.map Prod.fst →
        distance_squared_exact (chunk_of location) p = distance * distance - 1 →
          p ∈ (build_meshes w m location pack distance).1.map Prod.fst) := by
  intro w m location pack distance hr hw
  have hfilter :
      (w.loaded_chunks.filter fun e =>
          decide (distance_squared (chunk_of location) e.1 <
            wrap_i32 (distance * distance))) =
        w.loaded_chunks.filter fun e =>
          decide (distance_squared_exact (chunk_of location) e.1 <
            distance * distance) := by
    apply List.filter_congr
    intro e he
    have hee : distance_squared_exact (chunk_of location) e.1 < 2 ^ 31 :=
      hw e.1 (List.mem_map_of_mem Prod.fst he)
    rw [distance_squared_eq_exact _ _ hee,
      wrap_i32_eq_self (distance * distance)
        (le_trans (by norm_num) (mul_self_nonneg distance)) hr]
  have hfst : (build_meshes w m location pack distance).1.map Prod.fst =
      (w.loaded_chunks.filter fun e =>
          decide (distance_squared_exact (chunk_of location) e.1 <
            distance * distance)).map Prod.fst := by
    unfold build_meshes
    rw [hfilter]
    simpa using build_meshes_fold_fst pack _ [] m
  have hmem : ∀ p : IVec3,
      p ∈ (build_meshes w m location pack distance).1.map Prod.fst ↔
        p ∈ w.loaded_chunks.map Prod.fst ∧
          distance_squared_exact (chunk_of location) p < distance * distance := by
    intro p
    rw [hfst]
    simp only [List.mem_map, List.mem_filter, decide_eq_true_eq]
    constructor
    · rintro ⟨e, ⟨he, hd⟩, rfl⟩
      exact ⟨⟨e, he, rfl⟩, hd⟩
    · rintro ⟨⟨e, he, rfl⟩, hd⟩
      exact ⟨e, ⟨he, hd⟩, rfl⟩
  refine ⟨hfst, hmem, ?_, ?_⟩
  · intro p hd hp
    have hlt := ((hmem p).mp hp).2
    rw [hd] at hlt
    exact lt_irrefl _ hlt
  · intro p hp hd
    refine (hmem p).mpr ⟨hp, ?_⟩
    rw [hd]
    exact sub_one_lt _

theorem c6_build_meshes_radius_witness :
    (⟨1, 0, 0⟩ : IVec3) ∉
      (build_meshes worldW mesherW ⟨0, 0, 0⟩ packEmpty 1).1.map Prod.fst ∧
    (⟨0, 0, 0⟩ : IVec3) ∈
      (build_meshes worldW mesherW ⟨0, 0, 0⟩ packEmpty 1).1.map Prod.fst :=
  ⟨(c6_build_meshes_radius worldW mesherW ⟨0, 0, 0⟩ packEmpty 1 (by decide)
        (by decide)).2.2.1 ⟨1, 0, 0⟩ (by decide),
   (c6_build_meshes_radius worldW mesherW ⟨0, 0, 0⟩ packEmpty 1 (by decide)
        (by decide)).2.2.2 ⟨0, 0, 0⟩ (by decide) (by decide)⟩

end Ditch
